import Mathlib

/-!
Shallow embedding of the odds-to-outcome probability engine of the
sports-betting frontend: the market generator (`generateMissingMarkets`,
`oddsToProbabilities`) and the odds converter (`oddsToScoreProbabilities`,
`oddsToScoreProbabilitiesWithTotals`).

Numbers are modelled as rationals.  JavaScript division by zero produces
Infinity/NaN, which has no rational counterpart; `Rat` division is total
with `x / 0 = 0`, and every statement whose conclusion depends on a
denominator carries explicit nonzero or positivity hypotheses.  JavaScript
truthiness tests on numbers (`x ? a : b`, which picks `b` when `x` is `0`)
are modelled by explicit zero tests.
-/

/-- A scoreline with its probability (`oddsConverter.ts`). -/
structure ScoreProbability where
  home_score : Nat
  away_score : Nat
  probability : ℚ
  deriving DecidableEq

/-- The `h2h` (win market) field of `MatchMarkets`: home and away decimal
odds with an optional draw. -/
structure H2HOdds where
  home : ℚ
  draw : Option ℚ
  away : ℚ
  deriving DecidableEq

/-- The `totals` field of `MatchMarkets`: a goal threshold with over and
under decimal odds. -/
structure TotalsOdds where
  point : ℚ
  over : ℚ
  under : ℚ
  deriving DecidableEq

/-- The `bothTeamsToScore` field of `MatchMarkets`. -/
structure BTTSOdds where
  yes : ℚ
  no : ℚ
  deriving DecidableEq

/-- One `{ score, odds }` entry of the `correctScore` market. -/
structure CorrectScoreEntry where
  score : String
  odds : ℚ
  deriving DecidableEq

/-- The `MatchMarkets` aggregate: zero or one of each market kind. -/
structure MatchMarkets where
  h2h : Option H2HOdds := none
  totals : Option TotalsOdds := none
  bothTeamsToScore : Option BTTSOdds := none
  correctScore : Option (List CorrectScoreEntry) := none
  deriving DecidableEq

/-- The JavaScript pattern `odds ? 1 / odds : dflt`: implied probability of
optional decimal odds with a default, where both an absent value and a zero
value (falsy in JavaScript) yield the default. -/
def impliedOr (odds : Option ℚ) (dflt : ℚ) : ℚ :=
  match odds with
  | some d => if d = 0 then dflt else 1 / d
  | none => dflt

/-- `list.reduce((sum, sp) => sum + sp.probability, 0)`. -/
def sumProbs (l : List ScoreProbability) : ℚ :=
  l.foldl (fun s sp => s + sp.probability) 0

/-- `list.reduce((sum, s) => sum + s.prob, 0)` over the correct-score
catalogue of the market generator. -/
def sumSnd (l : List (String × ℚ)) : ℚ :=
  l.foldl (fun s p => s + p.2) 0

/-- The inline renormalization step used after each conditioning pass
(`oddsToProbabilities` and `oddsToScoreProbabilitiesWithTotals`): divide
every entry by the list's sum.  The source performs the division
unconditionally, with no zero-sum guard. -/
def normalizeProbs (l : List ScoreProbability) : List ScoreProbability :=
  let totalAdjusted := sumProbs l
  l.map (fun sp => { sp with probability := sp.probability / totalAdjusted })

/-- Home-win scoreline catalogue `(home, away, weight)`, shared verbatim by
`oddsToScoreProbabilities` and `oddsToProbabilities`. -/
def homeWinScores : List (Nat × Nat × ℚ) :=
  [(1, 0, 0.35), (2, 0, 0.20), (2, 1, 0.18), (3, 0, 0.10),
   (3, 1, 0.10), (4, 0, 0.04), (3, 2, 0.03)]

/-- Draw scoreline catalogue. -/
def drawScores : List (Nat × Nat × ℚ) :=
  [(0, 0, 0.30), (1, 1, 0.40), (2, 2, 0.20), (3, 3, 0.10)]

/-- Away-win scoreline catalogue. -/
def awayWinScores : List (Nat × Nat × ℚ) :=
  [(0, 1, 0.35), (0, 2, 0.20), (1, 2, 0.18), (0, 3, 0.10),
   (1, 3, 0.10), (0, 4, 0.04), (2, 3, 0.03)]

/-- The three catalogue-pushing loops shared verbatim by
`oddsToScoreProbabilities` and `oddsToProbabilities`: each outcome class's
normalized probability spread over its catalogue weights. -/
def baseScoreProbabilities (normHome normDraw normAway : ℚ) : List ScoreProbability :=
  homeWinScores.map (fun s => ⟨s.1, s.2.1, normHome * s.2.2⟩)
    ++ drawScores.map (fun s => ⟨s.1, s.2.1, normDraw * s.2.2⟩)
    ++ awayWinScores.map (fun s => ⟨s.1, s.2.1, normAway * s.2.2⟩)

/-- `oddsToScoreProbabilities` (`oddsConverter.ts`): win-market odds to the
18-entry base score distribution. -/
def oddsToScoreProbabilities (homeOdds : ℚ) (drawOdds : Option ℚ) (awayOdds : ℚ) :
    List ScoreProbability :=
  let homeProb := 1 / homeOdds
  let drawProb := impliedOr drawOdds 0
  let awayProb := 1 / awayOdds
  let total := homeProb + drawProb + awayProb
  let normHome := homeProb / total
  let normDraw := drawProb / total
  let normAway := awayProb / total
  baseScoreProbabilities normHome normDraw normAway

/-- The totals conditioning map of `oddsToProbabilities` (market generator):
above the point multiply by `0.5 + normOver * 0.5`, below the point by
`0.5 + (1 - normOver) * 0.5`, at the point leave the entry untouched. -/
def totalsAdjust (t : TotalsOdds) (l : List ScoreProbability) : List ScoreProbability :=
  let overProb := 1 / t.over
  let underProb := 1 / t.under
  let totalProb := overProb + underProb
  let normOver := overProb / totalProb
  l.map (fun sp =>
    if (sp.home_score : ℚ) + (sp.away_score : ℚ) > t.point then
      { sp with probability := sp.probability * (0.5 + normOver * 0.5) }
    else if (sp.home_score : ℚ) + (sp.away_score : ℚ) < t.point then
      { sp with probability := sp.probability * (0.5 + (1 - normOver) * 0.5) }
    else sp)

/-- The both-teams-to-score conditioning map of `oddsToProbabilities`. -/
def bttsAdjust (b : BTTSOdds) (l : List ScoreProbability) : List ScoreProbability :=
  let bttsYesProb := 1 / b.yes
  let bttsNoProb := 1 / b.no
  let totalBTTS := bttsYesProb + bttsNoProb
  let normBTTSYes := bttsYesProb / totalBTTS
  l.map (fun sp =>
    if sp.home_score > 0 ∧ sp.away_score > 0 then
      { sp with probability := sp.probability * (0.5 + normBTTSYes * 0.5) }
    else
      { sp with probability := sp.probability * (0.5 + (1 - normBTTSYes) * 0.5) })

/-- `oddsToProbabilities` (market generator): base distribution from the
win market, then totals conditioning plus renormalization, then
both-teams-to-score conditioning plus renormalization; an empty list when
the win market is absent.  The base block of the source is character for
character the body of `oddsToScoreProbabilities`. -/
def oddsToProbabilities (markets : MatchMarkets) : List ScoreProbability :=
  match markets.h2h with
  | none => []
  | some h =>
    let base := oddsToScoreProbabilities h.home h.draw h.away
    let afterTotals :=
      match markets.totals with
      | none => base
      | some t => normalizeProbs (totalsAdjust t base)
    match markets.bothTeamsToScore with
    | none => afterTotals
    | some b => normalizeProbs (bttsAdjust b afterTotals)

/-- The totals conditioning map of `oddsToScoreProbabilitiesWithTotals`
(`oddsConverter.ts`): identical to `totalsAdjust` except that the
below-the-point factor is written `0.5 + normUnder * 0.5`. -/
def totalsAdjustUnder (point overOdds underOdds : ℚ) (l : List ScoreProbability) :
    List ScoreProbability :=
  let overProb := 1 / overOdds
  let underProb := 1 / underOdds
  let totalProb := overProb + underProb
  let normOver := overProb / totalProb
  let normUnder := underProb / totalProb
  l.map (fun sp =>
    if (sp.home_score : ℚ) + (sp.away_score : ℚ) > point then
      { sp with probability := sp.probability * (0.5 + normOver * 0.5) }
    else if (sp.home_score : ℚ) + (sp.away_score : ℚ) < point then
      { sp with probability := sp.probability * (0.5 + normUnder * 0.5) }
    else sp)

/-- `oddsToScoreProbabilitiesWithTotals` (`oddsConverter.ts`).  The source
guard `if (totalsPoint && overOdds && underOdds)` requires the three
optional arguments to be present and nonzero (zero is falsy). -/
def oddsToScoreProbabilitiesWithTotals (homeOdds : ℚ) (drawOdds : Option ℚ)
    (awayOdds : ℚ) (totalsPoint overOdds underOdds : Option ℚ) :
    List ScoreProbability :=
  let base := oddsToScoreProbabilities homeOdds drawOdds awayOdds
  match totalsPoint, overOdds, underOdds with
  | some p, some o, some u =>
    if p ≠ 0 ∧ o ≠ 0 ∧ u ≠ 0 then normalizeProbs (totalsAdjustUnder p o u base)
    else base
  | _, _, _ => base

/-- The `commonScores` catalogue of the market generator's correct-score
synthesis: 16 scorelines with heuristic pre-normalization probabilities.
Note that the `3-2` entry uses `(homeProb + awayProb) * 0.05`. -/
def commonScoreProbs (homeProb awayProb drawProb : ℚ) : List (String × ℚ) :=
  [("0-0", drawProb * 0.2), ("1-0", homeProb * 0.15), ("0-1", awayProb * 0.15),
   ("1-1", drawProb * 0.3), ("2-0", homeProb * 0.12), ("0-2", awayProb * 0.12),
   ("2-1", homeProb * 0.18), ("1-2", awayProb * 0.18), ("2-2", drawProb * 0.2),
   ("3-0", homeProb * 0.08), ("0-3", awayProb * 0.08), ("3-1", homeProb * 0.1),
   ("1-3", awayProb * 0.1), ("3-2", (homeProb + awayProb) * 0.05),
   ("4-0", homeProb * 0.03), ("0-4", awayProb * 0.03)]

/-- `generateMissingMarkets` (market generator).  The TypeScript parameter
type exposes only the `h2h` and `totals` fields, so a full `MatchMarkets`
value may be fed back in: its other two fields are ignored.  The working
`markets` object starts from the `h2h`/`totals` pass-through, hence its
`bothTeamsToScore` and `correctScore` are still absent when the synthesis
blocks test for them — both are (re)synthesised on every call. -/
def generateMissingMarkets (m : MatchMarkets) : MatchMarkets :=
  let bttsHomeProb := match m.h2h with | some h => 1 / h.home | none => 0.33
  let bttsAwayProb := match m.h2h with | some h => 1 / h.away | none => 0.33
  let teamBalance := min bttsHomeProb bttsAwayProb / max bttsHomeProb bttsAwayProb
  let avgWinProb := (bttsHomeProb + bttsAwayProb) / 2
  let bttsProb := 0.4 + teamBalance * 0.3 + avgWinProb * 0.2
  let btts : BTTSOdds := ⟨(1 / bttsProb) * 1.05, (1 / (1 - bttsProb)) * 1.05⟩
  let totals : Option TotalsOdds :=
    match m.totals with
    | some t => some t
    | none =>
      match m.h2h with
      | some h =>
        let homeProb := 1 / h.home
        let awayProb := 1 / h.away
        let drawProb := impliedOr h.draw 0.34
        let attackRating := (homeProb + awayProb) / 2
        let over25Prob := 0.3 + attackRating * 0.4 - drawProb * 0.2
        some ⟨2.5, (1 / over25Prob) * 1.05, (1 / (1 - over25Prob)) * 1.05⟩
      | none => none
  let correctScore : Option (List CorrectScoreEntry) :=
    match m.h2h with
    | some h =>
      let commonScores := commonScoreProbs (1 / h.home) (1 / h.away) (impliedOr h.draw 0.34)
      let totalProb := sumSnd commonScores
      some (commonScores.map (fun s => ⟨s.1, (1 / (s.2 / totalProb)) * 1.1⟩))
    | none => none
  { h2h := m.h2h, totals := totals, bothTeamsToScore := some btts,
    correctScore := correctScore }

/-! ### Helper lemmas -/

lemma foldl_add_eq_sum {α : Type} (f : α → ℚ) (l : List α) (a : ℚ) :
    l.foldl (fun s x => s + f x) a = a + (l.map f).sum := by
  induction l generalizing a with
  | nil => simp
  | cons x xs ih => simp [ih, add_assoc]

lemma sumProbs_eq_sum (l : List ScoreProbability) :
    sumProbs l = (l.map ScoreProbability.probability).sum := by
  simpa [sumProbs] using foldl_add_eq_sum ScoreProbability.probability l 0

lemma sumSnd_eq_sum (l : List (String × ℚ)) :
    sumSnd l = (l.map Prod.snd).sum := by
  simpa [sumSnd] using foldl_add_eq_sum Prod.snd l 0

lemma sum_map_mul_right {α : Type} (l : List α) (f : α → ℚ) (c : ℚ) :
    (l.map (fun x => f x * c)).sum = (l.map f).sum * c := by
  induction l with
  | nil => simp
  | cons x xs ih => simp [ih, add_mul]

lemma sum_map_div {α : Type} (l : List α) (f : α → ℚ) (c : ℚ) :
    (l.map (fun x => f x / c)).sum = (l.map f).sum / c := by
  induction l with
  | nil => simp
  | cons x xs ih => simp [ih, add_div]

lemma normalizeProbs_eq (l : List ScoreProbability) :
    normalizeProbs l =
      l.map (fun sp => { sp with probability := sp.probability / sumProbs l }) := rfl

lemma sumProbs_normalizeProbs (l : List ScoreProbability) (hS : sumProbs l ≠ 0) :
    sumProbs (normalizeProbs l) = 1 := by
  rw [normalizeProbs_eq, sumProbs_eq_sum, List.map_map]
  have h1 : (ScoreProbability.probability ∘ fun sp =>
      { sp with probability := sp.probability / sumProbs l }) =
      fun sp => ScoreProbability.probability sp / sumProbs l := rfl
  rw [h1, sum_map_div, ← sumProbs_eq_sum, div_self hS]

lemma sumProbs_base (nh nd na : ℚ) :
    sumProbs (baseScoreProbabilities nh nd na) = nh + nd + na := by
  simp [baseScoreProbabilities, homeWinScores, drawScores, awayWinScores, sumProbs_eq_sum]
  ring

lemma oddsToScoreProbabilities_eq (h : ℚ) (d : Option ℚ) (a : ℚ) :
    oddsToScoreProbabilities h d a =
      baseScoreProbabilities ((1 / h) / (1 / h + impliedOr d 0 + 1 / a))
        ((impliedOr d 0) / (1 / h + impliedOr d 0 + 1 / a))
        ((1 / a) / (1 / h + impliedOr d 0 + 1 / a)) := rfl

lemma impliedOr_pos {o : Option ℚ} {dflt : ℚ} (ho : ∀ d ∈ o, 1 < d) (hdflt : 0 < dflt) :
    0 < impliedOr o dflt := by
  cases o with
  | none => simpa [impliedOr] using hdflt
  | some d =>
    have hd := ho d (by simp)
    by_cases h0 : d = 0
    · simpa [impliedOr, h0] using hdflt
    · have hdpos : 0 < d := lt_trans one_pos hd
      simp only [impliedOr, h0, if_false]
      positivity

lemma impliedOr_nonneg {o : Option ℚ} {dflt : ℚ} (ho : ∀ d ∈ o, 1 < d) (hdflt : 0 ≤ dflt) :
    0 ≤ impliedOr o dflt := by
  cases o with
  | none => simpa [impliedOr] using hdflt
  | some d =>
    have hd := ho d (by simp)
    by_cases h0 : d = 0
    · simpa [impliedOr, h0] using hdflt
    · have hdpos : 0 < d := lt_trans one_pos hd
      simp only [impliedOr, h0, if_false]
      positivity

lemma implied_total_pos {h : H2HOdds} (hh : 1 < h.home) (ha : 1 < h.away)
    (hd : ∀ d ∈ h.draw, 1 < d) :
    0 < 1 / h.home + impliedOr h.draw 0 + 1 / h.away := by
  have hhome : 0 < h.home := lt_trans one_pos hh
  have haway : 0 < h.away := lt_trans one_pos ha
  have h1 : 0 < 1 / h.home := one_div_pos.mpr hhome
  have h3 : 0 < 1 / h.away := one_div_pos.mpr haway
  have h2 : 0 ≤ impliedOr h.draw 0 := impliedOr_nonneg hd le_rfl
  linarith

lemma sumProbs_oddsToScoreProbabilities {h : H2HOdds} (hh : 1 < h.home) (ha : 1 < h.away)
    (hd : ∀ d ∈ h.draw, 1 < d) :
    sumProbs (oddsToScoreProbabilities h.home h.draw h.away) = 1 := by
  have ht := implied_total_pos hh ha hd
  rw [oddsToScoreProbabilities_eq, sumProbs_base, div_add_div_same, div_add_div_same,
    div_self (ne_of_gt ht)]

lemma baseScoreProbabilities_nonneg {nh nd na : ℚ} (h1 : 0 ≤ nh) (h2 : 0 ≤ nd)
    (h3 : 0 ≤ na) :
    ∀ sp ∈ baseScoreProbabilities nh nd na, 0 ≤ sp.probability := by
  intro sp hsp
  simp [baseScoreProbabilities, homeWinScores, drawScores, awayWinScores] at hsp
  rcases hsp with rfl | rfl | rfl | rfl | rfl | rfl | rfl | rfl | rfl | rfl | rfl | rfl |
    rfl | rfl | rfl | rfl | rfl | rfl <;>
    first
    | exact mul_nonneg h1 (by norm_num)
    | exact mul_nonneg h2 (by norm_num)
    | exact mul_nonneg h3 (by norm_num)

lemma oddsToScoreProbabilities_nonneg {h : H2HOdds} (hh : 1 < h.home) (ha : 1 < h.away)
    (hd : ∀ d ∈ h.draw, 1 < d) :
    ∀ sp ∈ oddsToScoreProbabilities h.home h.draw h.away, 0 ≤ sp.probability := by
  have ht := implied_total_pos hh ha hd
  have hhome : 0 < h.home := lt_trans one_pos hh
  have haway : 0 < h.away := lt_trans one_pos ha
  have h2 : 0 ≤ impliedOr h.draw 0 := impliedOr_nonneg hd le_rfl
  rw [oddsToScoreProbabilities_eq]
  exact baseScoreProbabilities_nonneg
    (div_nonneg (one_div_pos.mpr hhome).le ht.le)
    (div_nonneg h2 ht.le)
    (div_nonneg (one_div_pos.mpr haway).le ht.le)

lemma normOver_bounds {o u : ℚ} (ho : 0 < o) (hu : 0 < u) :
    0 ≤ (1 / o) / (1 / o + 1 / u) ∧ (1 / o) / (1 / o + 1 / u) ≤ 1 := by
  have p1 : 0 < 1 / o := one_div_pos.mpr ho
  have p2 : 0 < 1 / u := one_div_pos.mpr hu
  have pt : 0 < 1 / o + 1 / u := by linarith
  refine ⟨div_nonneg p1.le pt.le, ?_⟩
  rw [div_le_one pt]
  linarith

lemma totalsAdjust_map (t : TotalsOdds) (l : List ScoreProbability) :
    totalsAdjust t l = l.map (fun sp =>
      { sp with probability := sp.probability *
          (if ((sp.home_score : ℚ) + (sp.away_score : ℚ) > t.point) then
            0.5 + ((1 / t.over) / (1 / t.over + 1 / t.under)) * 0.5
          else if ((sp.home_score : ℚ) + (sp.away_score : ℚ) < t.point) then
            0.5 + (1 - (1 / t.over) / (1 / t.over + 1 / t.under)) * 0.5
          else 1) }) := by
  rw [totalsAdjust]
  congr 1
  funext sp
  rcases sp with ⟨b1, b2, pr⟩
  split_ifs with h1 h2
  · rfl
  · rfl
  · simp

lemma sumProbs_totalsAdjust_ge {h : H2HOdds} {t : TotalsOdds}
    (hh : 1 < h.home) (ha : 1 < h.away) (hd : ∀ d ∈ h.draw, 1 < d)
    (hov : 0 < t.over) (hun : 0 < t.under) :
    (1 : ℚ) / 2 ≤ sumProbs (totalsAdjust t (oddsToScoreProbabilities h.home h.draw h.away)) := by
  obtain ⟨hn0, hn1⟩ := normOver_bounds hov hun
  simp only [one_div] at hn0 hn1
  have hnn := oddsToScoreProbabilities_nonneg hh ha hd
  have hsum := sumProbs_oddsToScoreProbabilities hh ha hd
  rw [totalsAdjust_map, sumProbs_eq_sum, List.map_map]
  have hcomp : (ScoreProbability.probability ∘ fun (sp : ScoreProbability) =>
      ({ sp with probability := sp.probability *
          (if ((sp.home_score : ℚ) + (sp.away_score : ℚ) > t.point) then
            0.5 + ((1 / t.over) / (1 / t.over + 1 / t.under)) * 0.5
          else if ((sp.home_score : ℚ) + (sp.away_score : ℚ) < t.point) then
            0.5 + (1 - (1 / t.over) / (1 / t.over + 1 / t.under)) * 0.5
          else 1) } : ScoreProbability)) =
      fun sp => sp.probability *
          (if ((sp.home_score : ℚ) + (sp.away_score : ℚ) > t.point) then
            0.5 + ((1 / t.over) / (1 / t.over + 1 / t.under)) * 0.5
          else if ((sp.home_score : ℚ) + (sp.away_score : ℚ) < t.point) then
            0.5 + (1 - (1 / t.over) / (1 / t.over + 1 / t.under)) * 0.5
          else 1) := rfl
  rw [hcomp]
  have step : ((oddsToScoreProbabilities h.home h.draw h.away).map
      (fun sp => ScoreProbability.probability sp * (1 / 2))).sum ≤
      ((oddsToScoreProbabilities h.home h.draw h.away).map
        (fun sp => sp.probability *
          (if ((sp.home_score : ℚ) + (sp.away_score : ℚ) > t.point) then
            0.5 + ((1 / t.over) / (1 / t.over + 1 / t.under)) * 0.5
          else if ((sp.home_score : ℚ) + (sp.away_score : ℚ) < t.point) then
            0.5 + (1 - (1 / t.over) / (1 / t.over + 1 / t.under)) * 0.5
          else 1))).sum := by
    apply List.sum_le_sum
    intro sp hsp
    have hp := hnn sp hsp
    split_ifs with h1 h2
    · exact mul_le_mul_of_nonneg_left (by norm_num; linarith) hp
    · exact mul_le_mul_of_nonneg_left (by norm_num; linarith) hp
    · exact mul_le_mul_of_nonneg_left (by norm_num) hp
  calc (1 : ℚ) / 2
      = ((oddsToScoreProbabilities h.home h.draw h.away).map
          (fun sp => ScoreProbability.probability sp * (1 / 2))).sum := by
        rw [sum_map_mul_right, ← sumProbs_eq_sum, hsum, one_mul]
    _ ≤ _ := step

/-! ### Claim theorems -/

/-- C3: for every `MatchMarkets` input without an `h2h` win market,
`oddsToProbabilities` returns the empty list, regardless of which other
markets (totals, both-teams-to-score, correct-score) are present. -/
theorem c3_no_win_market_empty (t : Option TotalsOdds) (b : Option BTTSOdds)
    (c : Option (List CorrectScoreEntry)) :
    oddsToProbabilities
      { h2h := none, totals := t, bothTeamsToScore := b, correctScore := c } = [] := rfl

/-- C4: `generateMissingMarkets` is idempotent: feeding its output back in
returns that output unchanged.  The win and totals markets of the output are
passed through, and the synthesized markets are recomputed from the same
win market, hence identically. -/
theorem c4_generateMissingMarkets_idempotent (m : MatchMarkets) :
    generateMissingMarkets (generateMissingMarkets m) = generateMissingMarkets m := by
  rcases m with ⟨h2h, totals, btts, cs⟩
  cases h2h <;> cases totals <;> rfl

/-- C8 counterexample: the renormalization step (`normalizeProbs`, the
inline division of the source) does not return a zero-sum list unchanged —
there is no zero-sum guard, the division is performed unconditionally.
(In the rational model each entry becomes `0`; in JavaScript each entry
becomes `±Infinity`; in neither case is the input returned unchanged.) -/
theorem c8_counterexample :
    sumProbs [⟨1, 0, 1⟩, ⟨0, 1, -1⟩] = 0 ∧
      normalizeProbs [⟨1, 0, 1⟩, ⟨0, 1, -1⟩] ≠ [⟨1, 0, 1⟩, ⟨0, 1, -1⟩] := by
  constructor
  · norm_num [sumProbs]
  · norm_num [normalizeProbs, sumProbs]

/-- C6: whenever both-teams-to-score is absent (the generator in fact
always resynthesizes it), `generateMissingMarkets` sets it from
`homeImpliedProb = 1/homeOdds` and `awayImpliedProb = 1/awayOdds`
(defaulting both to `0.33` without a win market), with
`balance = min/max`, `avgWinProb` their mean,
`bttsProbability = 0.4 + 0.3·balance + 0.2·avgWinProb`,
`yes = (1/p)·1.05` and `no = (1/(1-p))·1.05`. -/
theorem c6_btts_synthesis (m : MatchMarkets) (hp ap : ℚ)
    (hhp : hp = match m.h2h with | some h => 1 / h.home | none => 0.33)
    (hap : ap = match m.h2h with | some h => 1 / h.away | none => 0.33) :
    (generateMissingMarkets m).bothTeamsToScore =
      some ⟨(1 / (0.4 + 0.3 * (min hp ap / max hp ap) + 0.2 * ((hp + ap) / 2))) * 1.05,
        (1 / (1 - (0.4 + 0.3 * (min hp ap / max hp ap) + 0.2 * ((hp + ap) / 2)))) * 1.05⟩ := by
  subst hhp hap
  simp only [generateMissingMarkets]
  have e1 : ∀ x y : ℚ, 0.4 + x * 0.3 + y * 0.2 = 0.4 + 0.3 * x + 0.2 * y := fun x y => by ring
  simp only [e1]

/-- Witness for C6 at the win market (2, 3, 4). -/
theorem c6_btts_synthesis_witness :
    (generateMissingMarkets { h2h := some ⟨2, some 3, 4⟩ }).bothTeamsToScore =
      some ⟨(1 / (0.4 + 0.3 * (min (1 / 2 : ℚ) (1 / 4) / max (1 / 2 : ℚ) (1 / 4)) +
          0.2 * (((1 / 2 : ℚ) + 1 / 4) / 2))) * 1.05,
        (1 / (1 - (0.4 + 0.3 * (min (1 / 2 : ℚ) (1 / 4) / max (1 / 2 : ℚ) (1 / 4)) +
          0.2 * (((1 / 2 : ℚ) + 1 / 4) / 2)))) * 1.05⟩ :=
  c6_btts_synthesis { h2h := some ⟨2, some 3, 4⟩ } (1 / 2) (1 / 4) (by norm_num) (by norm_num)

/-- C1: for a win-only market (home and away odds > 1, draw optional and
> 1 when present) with no other markets, `oddsToProbabilities` returns
exactly the 18 catalogued scorelines (7 home-win, 4 draw, 7 away-win),
each with probability equal to its class's normalized implied probability
times its fixed catalogue weight, and the probabilities sum to 1 (exactly,
in rational arithmetic). -/
theorem c1_win_only_distribution (h : H2HOdds) (nh nd na : ℚ)
    (hh : 1 < h.home) (ha : 1 < h.away) (hd : ∀ d ∈ h.draw, 1 < d)
    (hnh : nh = (1 / h.home) / (1 / h.home + impliedOr h.draw 0 + 1 / h.away))
    (hnd : nd = impliedOr h.draw 0 / (1 / h.home + impliedOr h.draw 0 + 1 / h.away))
    (hna : na = (1 / h.away) / (1 / h.home + impliedOr h.draw 0 + 1 / h.away)) :
    oddsToProbabilities { h2h := some h } =
      [⟨1, 0, nh * 0.35⟩, ⟨2, 0, nh * 0.20⟩, ⟨2, 1, nh * 0.18⟩, ⟨3, 0, nh * 0.10⟩,
       ⟨3, 1, nh * 0.10⟩, ⟨4, 0, nh * 0.04⟩, ⟨3, 2, nh * 0.03⟩,
       ⟨0, 0, nd * 0.30⟩, ⟨1, 1, nd * 0.40⟩, ⟨2, 2, nd * 0.20⟩, ⟨3, 3, nd * 0.10⟩,
       ⟨0, 1, na * 0.35⟩, ⟨0, 2, na * 0.20⟩, ⟨1, 2, na * 0.18⟩, ⟨0, 3, na * 0.10⟩,
       ⟨1, 3, na * 0.10⟩, ⟨0, 4, na * 0.04⟩, ⟨2, 3, na * 0.03⟩] ∧
    (oddsToProbabilities { h2h := some h }).length = 18 ∧
    sumProbs (oddsToProbabilities { h2h := some h }) = 1 := by
  subst hnh hnd hna
  have hbase : oddsToProbabilities { h2h := some h } =
      oddsToScoreProbabilities h.home h.draw h.away := rfl
  refine ⟨?_, ?_, ?_⟩
  · rw [hbase, oddsToScoreProbabilities_eq]
    simp [baseScoreProbabilities, homeWinScores, drawScores, awayWinScores]
  · rw [hbase]
    rfl
  · rw [hbase]
    exact sumProbs_oddsToScoreProbabilities hh ha hd

/-- Witness for C1 at the win market (2, 3, 4): normalized class
probabilities 6/13, 4/13 and 3/13. -/
theorem c1_win_only_distribution_witness :
    oddsToProbabilities { h2h := some ⟨2, some 3, 4⟩ } =
      [⟨1, 0, (6 / 13 : ℚ) * 0.35⟩, ⟨2, 0, (6 / 13 : ℚ) * 0.20⟩, ⟨2, 1, (6 / 13 : ℚ) * 0.18⟩,
       ⟨3, 0, (6 / 13 : ℚ) * 0.10⟩, ⟨3, 1, (6 / 13 : ℚ) * 0.10⟩, ⟨4, 0, (6 / 13 : ℚ) * 0.04⟩,
       ⟨3, 2, (6 / 13 : ℚ) * 0.03⟩,
       ⟨0, 0, (4 / 13 : ℚ) * 0.30⟩, ⟨1, 1, (4 / 13 : ℚ) * 0.40⟩, ⟨2, 2, (4 / 13 : ℚ) * 0.20⟩,
       ⟨3, 3, (4 / 13 : ℚ) * 0.10⟩,
       ⟨0, 1, (3 / 13 : ℚ) * 0.35⟩, ⟨0, 2, (3 / 13 : ℚ) * 0.20⟩, ⟨1, 2, (3 / 13 : ℚ) * 0.18⟩,
       ⟨0, 3, (3 / 13 : ℚ) * 0.10⟩, ⟨1, 3, (3 / 13 : ℚ) * 0.10⟩, ⟨0, 4, (3 / 13 : ℚ) * 0.04⟩,
       ⟨2, 3, (3 / 13 : ℚ) * 0.03⟩] ∧
    (oddsToProbabilities { h2h := some ⟨2, some 3, 4⟩ }).length = 18 ∧
    sumProbs (oddsToProbabilities { h2h := some ⟨2, some 3, 4⟩ }) = 1 :=
  c1_win_only_distribution ⟨2, some 3, 4⟩ (6 / 13) (4 / 13) (3 / 13)
    (by norm_num) (by norm_num)
    (by intro d hd; simp only [Option.mem_def, Option.some.injEq] at hd; subst hd; norm_num)
    (by norm_num [impliedOr]) (by norm_num [impliedOr]) (by norm_num [impliedOr])

lemma sumProbs_filter_offdiag (nh nd na : ℚ) :
    sumProbs ((baseScoreProbabilities nh nd na).filter
      (fun sp => sp.home_score ≠ sp.away_score)) = nh + na := by
  have hfilt : (baseScoreProbabilities nh nd na).filter
      (fun sp => sp.home_score ≠ sp.away_score) =
      homeWinScores.map (fun s => ⟨s.1, s.2.1, nh * s.2.2⟩)
        ++ awayWinScores.map (fun s => ⟨s.1, s.2.1, na * s.2.2⟩) := rfl
  rw [hfilt, sumProbs_eq_sum]
  simp [homeWinScores, awayWinScores]
  ring

/-- C10: with a win market carrying no draw odds, the Probability
Distributor uses a draw implied probability of exactly 0 (not the 0.34
default of the Market Normalizer): the four draw-catalogue entries of the
returned 18-entry distribution have probability 0 and the remaining 14
home-win and away-win entries sum to 1. -/
theorem c10_no_draw_odds_zero_draws (home away : ℚ) (hh : 1 < home) (ha : 1 < away) :
    (oddsToProbabilities { h2h := some ⟨home, none, away⟩ }).length = 18 ∧
    (∀ sp ∈ oddsToProbabilities { h2h := some ⟨home, none, away⟩ },
      sp.home_score = sp.away_score → sp.probability = 0) ∧
    sumProbs ((oddsToProbabilities { h2h := some ⟨home, none, away⟩ }).filter
      (fun sp => sp.home_score ≠ sp.away_score)) = 1 := by
  have hbase : oddsToProbabilities { h2h := some ⟨home, none, away⟩ } =
      baseScoreProbabilities
        ((1 / home) / (1 / home + impliedOr none 0 + 1 / away))
        (impliedOr none 0 / (1 / home + impliedOr none 0 + 1 / away))
        ((1 / away) / (1 / home + impliedOr none 0 + 1 / away)) := rfl
  have hT : 0 < 1 / home + 1 / away := by
    have h1 : 0 < 1 / home := one_div_pos.mpr (lt_trans one_pos hh)
    have h2 : 0 < 1 / away := one_div_pos.mpr (lt_trans one_pos ha)
    linarith
  refine ⟨rfl, ?_, ?_⟩
  · rw [hbase]
    intro sp hsp
    simp [baseScoreProbabilities, homeWinScores, drawScores, awayWinScores] at hsp
    rcases hsp with rfl | rfl | rfl | rfl | rfl | rfl | rfl | rfl | rfl | rfl | rfl | rfl |
      rfl | rfl | rfl | rfl | rfl | rfl <;> intro hEq <;>
      simp [impliedOr] at hEq ⊢
  · rw [hbase, sumProbs_filter_offdiag, div_add_div_same]
    have hsimp : 1 / home + impliedOr none 0 + 1 / away = 1 / home + 1 / away := by
      simp [impliedOr]
    rw [hsimp, div_self (ne_of_gt hT)]

/-- Witness for C10 at the two-way win market (2, 4). -/
theorem c10_no_draw_odds_zero_draws_witness :
    (oddsToProbabilities { h2h := some ⟨2, none, 4⟩ }).length = 18 ∧
    (∀ sp ∈ oddsToProbabilities { h2h := some ⟨2, none, 4⟩ },
      sp.home_score = sp.away_score → sp.probability = 0) ∧
    sumProbs ((oddsToProbabilities { h2h := some ⟨2, none, 4⟩ }).filter
      (fun sp => sp.home_score ≠ sp.away_score)) = 1 :=
  c10_no_draw_odds_zero_draws 2 4 (by norm_num) (by norm_num)

/-- C9: for every win market (odds > 1) and totals values that are present
and nonzero — with over/under being genuine decimal odds, hence positive —
`oddsToScoreProbabilitiesWithTotals` returns exactly the distribution that
`oddsToProbabilities` computes on a `MatchMarkets` holding only that `h2h`
and totals market: the variant's `0.5 + normUnder · 0.5` below-point factor
coincides with the aggregate path's `0.5 + (1 − normOver) · 0.5`. -/
theorem c9_variant_matches_aggregate (h : H2HOdds) (p o u : ℚ)
    (_hh : 1 < h.home) (_ha : 1 < h.away) (_hd : ∀ d ∈ h.draw, 1 < d)
    (hp : p ≠ 0) (ho : 0 < o) (hu : 0 < u) :
    oddsToScoreProbabilitiesWithTotals h.home h.draw h.away (some p) (some o) (some u) =
      oddsToProbabilities { h2h := some h, totals := some ⟨p, o, u⟩ } := by
  have hguard : p ≠ 0 ∧ o ≠ 0 ∧ u ≠ 0 := ⟨hp, ne_of_gt ho, ne_of_gt hu⟩
  have hlhs : oddsToScoreProbabilitiesWithTotals h.home h.draw h.away
      (some p) (some o) (some u) =
      if p ≠ 0 ∧ o ≠ 0 ∧ u ≠ 0 then
        normalizeProbs
          (totalsAdjustUnder p o u (oddsToScoreProbabilities h.home h.draw h.away))
      else oddsToScoreProbabilities h.home h.draw h.away := rfl
  have hrhs : oddsToProbabilities { h2h := some h, totals := some ⟨p, o, u⟩ } =
      normalizeProbs
        (totalsAdjust ⟨p, o, u⟩ (oddsToScoreProbabilities h.home h.draw h.away)) := rfl
  rw [hlhs, if_pos hguard, hrhs]
  congr 1
  have hadj : totalsAdjustUnder p o u (oddsToScoreProbabilities h.home h.draw h.away) =
      (oddsToScoreProbabilities h.home h.draw h.away).map (fun sp =>
        if (sp.home_score : ℚ) + (sp.away_score : ℚ) > p then
          { sp with probability := sp.probability * (0.5 + ((1 / o) / (1 / o + 1 / u)) * 0.5) }
        else if (sp.home_score : ℚ) + (sp.away_score : ℚ) < p then
          { sp with probability := sp.probability * (0.5 + ((1 / u) / (1 / o + 1 / u)) * 0.5) }
        else sp) := rfl
  have hagg : totalsAdjust ⟨p, o, u⟩ (oddsToScoreProbabilities h.home h.draw h.away) =
      (oddsToScoreProbabilities h.home h.draw h.away).map (fun sp =>
        if (sp.home_score : ℚ) + (sp.away_score : ℚ) > p then
          { sp with probability := sp.probability * (0.5 + ((1 / o) / (1 / o + 1 / u)) * 0.5) }
        else if (sp.home_score : ℚ) + (sp.away_score : ℚ) < p then
          { sp with probability :=
            sp.probability * (0.5 + (1 - (1 / o) / (1 / o + 1 / u)) * 0.5) }
        else sp) := rfl
  rw [hadj, hagg]
  have h1 : 0 < 1 / o := one_div_pos.mpr ho
  have h2 : 0 < 1 / u := one_div_pos.mpr hu
  have hne : 1 / o + 1 / u ≠ 0 := by linarith
  have hfac : (1 : ℚ) - (1 / o) / (1 / o + 1 / u) = (1 / u) / (1 / o + 1 / u) := by
    field_simp
  rw [hfac]

/-- Witness for C9 at the win market (2, 3, 4) and totals (2.5, 1.9, 2.1). -/
theorem c9_variant_matches_aggregate_witness :
    oddsToScoreProbabilitiesWithTotals 2 (some 3) 4
      (some 2.5) (some 1.9) (some 2.1) =
      oddsToProbabilities { h2h := some ⟨2, some 3, 4⟩, totals := some ⟨2.5, 1.9, 2.1⟩ } :=
  c9_variant_matches_aggregate ⟨2, some 3, 4⟩ 2.5 1.9 2.1 (by norm_num) (by norm_num)
    (by intro d hd; simp only [Option.mem_def, Option.some.injEq] at hd; subst hd; norm_num)
    (by norm_num) (by norm_num) (by norm_num)

/-- C5 counterexample: with win market (2, 2, 2) and the balanced totals
market (point 2, over 2, under 2) — equal over/under implied
probabilities, `normOver = 1/2` — the conditioned, renormalized
distribution differs from the unconditioned one: entries whose total goals
equal the point keep factor 1 while all others are scaled by 3/4, so the
relative shape changes. -/
theorem c5_counterexample :
    oddsToProbabilities { h2h := some ⟨2, some 2, 2⟩, totals := some ⟨2, 2, 2⟩ } ≠
      oddsToProbabilities { h2h := some ⟨2, some 2, 2⟩ } := by
  intro hEq
  have h0 := congrArg (fun l => (l.headD ⟨0, 0, 0⟩).probability) hEq
  norm_num [oddsToProbabilities, oddsToScoreProbabilities, baseScoreProbabilities,
    impliedOr, homeWinScores, drawScores, awayWinScores, totalsAdjust, normalizeProbs,
    sumProbs] at h0

lemma baseScoreProbabilities_total_le {nh nd na : ℚ} :
    ∀ sp ∈ baseScoreProbabilities nh nd na, sp.home_score + sp.away_score ≤ 6 := by
  intro sp hsp
  simp [baseScoreProbabilities, homeWinScores, drawScores, awayWinScores] at hsp
  rcases hsp with rfl | rfl | rfl | rfl | rfl | rfl | rfl | rfl | rfl | rfl | rfl | rfl |
    rfl | rfl | rfl | rfl | rfl | rfl <;> simp

/-- C5 amended: conditioning by a totals market whose over and under
implied probabilities are equal (so `normOver = 1/2`) leaves the
distribution unchanged after renormalization, provided the totals point
does not equal the total goals of any catalogued scoreline (all catalogue
totals are at most 6); entries exactly at the point are exempt from the
reweighting factor, so such a point breaks neutrality (see the
counterexample). -/
theorem c5_amended_neutral_totals (h : H2HOdds) (t : TotalsOdds)
    (hh : 1 < h.home) (ha : 1 < h.away) (hd : ∀ d ∈ h.draw, 1 < d)
    (hov : 0 < t.over) (heq : 1 / t.over = 1 / t.under)
    (hpt : ∀ n : ℕ, n ≤ 6 → (n : ℚ) ≠ t.point) :
    oddsToProbabilities { h2h := some h, totals := some t } =
      oddsToProbabilities { h2h := some h } := by
  have hbase1 : oddsToProbabilities { h2h := some h, totals := some t } =
      normalizeProbs (totalsAdjust t (oddsToScoreProbabilities h.home h.draw h.away)) := rfl
  have hbase0 : oddsToProbabilities { h2h := some h } =
      oddsToScoreProbabilities h.home h.draw h.away := rfl
  have hop : 0 < 1 / t.over := one_div_pos.mpr hov
  have h2ne : (2 : ℚ) * (1 / t.over) ≠ 0 := ne_of_gt (by linarith)
  have hnu : (1 / t.over) / (1 / t.over + 1 / t.under) = 1 / 2 := by
    rw [← heq, ← two_mul, div_eq_iff h2ne]
    ring
  have hmap : totalsAdjust t (oddsToScoreProbabilities h.home h.draw h.away) =
      (oddsToScoreProbabilities h.home h.draw h.away).map
        (fun sp => { sp with probability := sp.probability * (3 / 4) }) := by
    rw [totalsAdjust_map]
    apply List.map_congr_left
    intro sp hsp
    rw [hnu]
    have hle : sp.home_score + sp.away_score ≤ 6 := by
      rw [oddsToScoreProbabilities_eq] at hsp
      exact baseScoreProbabilities_total_le sp hsp
    have hneq : (sp.home_score : ℚ) + (sp.away_score : ℚ) ≠ t.point := by
      intro habs
      refine hpt (sp.home_score + sp.away_score) hle ?_
      push_cast
      exact habs
    split_ifs with h1 h2
    · congr 1
      norm_num
    · congr 1
      norm_num
    · exact absurd (le_antisymm (not_lt.mp h1) (not_lt.mp h2)) hneq
  have hS : sumProbs (totalsAdjust t (oddsToScoreProbabilities h.home h.draw h.away)) =
      3 / 4 := by
    rw [hmap, sumProbs_eq_sum, List.map_map]
    have hcomp : (ScoreProbability.probability ∘ fun (sp : ScoreProbability) =>
        ({ sp with probability := sp.probability * (3 / 4) } : ScoreProbability)) =
        fun sp => ScoreProbability.probability sp * (3 / 4) := rfl
    rw [hcomp, sum_map_mul_right, ← sumProbs_eq_sum,
      sumProbs_oddsToScoreProbabilities hh ha hd, one_mul]
  rw [hbase1, hbase0, normalizeProbs_eq, hS, hmap, List.map_map]
  have hid : ((fun sp => { sp with probability := sp.probability / (3 / 4) }) ∘
      (fun (sp : ScoreProbability) =>
        { sp with probability := sp.probability * (3 / 4) })) = id := by
    funext sp
    cases sp
    simp only [Function.comp_apply, id_eq, ScoreProbability.mk.injEq, true_and]
    rw [mul_div_assoc]
    norm_num
  rw [hid, List.map_id]

/-- Witness for C5's amended theorem: win market (2, 3, 4) with neutral
totals at the half-integer point 2.5. -/
theorem c5_amended_neutral_totals_witness :
    oddsToProbabilities { h2h := some ⟨2, some 3, 4⟩, totals := some ⟨2.5, 2, 2⟩ } =
      oddsToProbabilities { h2h := some ⟨2, some 3, 4⟩ } :=
  c5_amended_neutral_totals ⟨2, some 3, 4⟩ ⟨2.5, 2, 2⟩ (by norm_num) (by norm_num)
    (by intro d hd; simp only [Option.mem_def, Option.some.injEq] at hd; subst hd; norm_num)
    (by norm_num) (by norm_num)
    (by intro n hn; interval_cases n <;> norm_num)

/-- C2: with a win market and a totals market present (odds > 1, per the
data model), `oddsToProbabilities` multiplies each base entry by
`0.5 + 0.5·normOver` above the point, by `0.5 + 0.5·(1 − normOver)` below
it, leaves entries exactly at the point unchanged (factor 1), and then
renormalizes by the positive sum `S` of the adjusted list, after which the
full list sums to 1. -/
theorem c2_totals_conditioning (h : H2HOdds) (t : TotalsOdds)
    (cs : Option (List CorrectScoreEntry)) (S : ℚ)
    (hh : 1 < h.home) (ha : 1 < h.away) (hd : ∀ d ∈ h.draw, 1 < d)
    (hov : 1 < t.over) (hun : 1 < t.under)
    (hS : S = sumProbs (totalsAdjust t (oddsToScoreProbabilities h.home h.draw h.away))) :
    0 < S ∧
    oddsToProbabilities { h2h := some h, totals := some t, correctScore := cs } =
      (oddsToScoreProbabilities h.home h.draw h.away).map (fun sp =>
        { sp with probability := (sp.probability *
            (if (sp.home_score : ℚ) + (sp.away_score : ℚ) > t.point then
              0.5 + 0.5 * ((1 / t.over) / (1 / t.over + 1 / t.under))
            else if (sp.home_score : ℚ) + (sp.away_score : ℚ) < t.point then
              0.5 + 0.5 * (1 - (1 / t.over) / (1 / t.over + 1 / t.under))
            else 1) / S) }) ∧
    sumProbs (oddsToProbabilities { h2h := some h, totals := some t, correctScore := cs })
      = 1 := by
  have hpos : 0 < S := by
    rw [hS]
    have hge := sumProbs_totalsAdjust_ge hh ha hd (lt_trans one_pos hov) (lt_trans one_pos hun)
    linarith
  have hro : oddsToProbabilities { h2h := some h, totals := some t, correctScore := cs } =
      normalizeProbs (totalsAdjust t (oddsToScoreProbabilities h.home h.draw h.away)) := rfl
  refine ⟨hpos, ?_, ?_⟩
  · rw [hro, normalizeProbs_eq, ← hS, totalsAdjust_map, List.map_map]
    apply List.map_congr_left
    intro sp _
    rcases sp with ⟨b1, b2, pr⟩
    simp only [Function.comp_apply]
    split_ifs with h1 h2 <;> simp only [ScoreProbability.mk.injEq, true_and] <;> try ring
  · rw [hro]
    refine sumProbs_normalizeProbs _ ?_
    rw [← hS]
    exact ne_of_gt hpos

/-- Witness for C2: win market (2, 3, 4), totals market (2.5, 2, 2). -/
theorem c2_totals_conditioning_witness :
    0 < sumProbs (totalsAdjust ⟨2.5, 2, 2⟩ (oddsToScoreProbabilities 2 (some 3) 4)) ∧
    oddsToProbabilities { h2h := some ⟨2, some 3, 4⟩, totals := some ⟨2.5, 2, 2⟩, correctScore := none } =
      (oddsToScoreProbabilities 2 (some 3) 4).map (fun sp =>
        { sp with probability := (sp.probability *
            (if (sp.home_score : ℚ) + (sp.away_score : ℚ) >
                TotalsOdds.point ⟨2.5, 2, 2⟩ then
              0.5 + 0.5 * ((1 / TotalsOdds.over ⟨2.5, 2, 2⟩) /
                (1 / TotalsOdds.over ⟨2.5, 2, 2⟩ + 1 / TotalsOdds.under ⟨2.5, 2, 2⟩))
            else if (sp.home_score : ℚ) + (sp.away_score : ℚ) <
                TotalsOdds.point ⟨2.5, 2, 2⟩ then
              0.5 + 0.5 * (1 - (1 / TotalsOdds.over ⟨2.5, 2, 2⟩) /
                (1 / TotalsOdds.over ⟨2.5, 2, 2⟩ + 1 / TotalsOdds.under ⟨2.5, 2, 2⟩))
            else 1) /
          sumProbs (totalsAdjust ⟨2.5, 2, 2⟩ (oddsToScoreProbabilities 2 (some 3) 4))) }) ∧
    sumProbs (oddsToProbabilities { h2h := some ⟨2, some 3, 4⟩, totals := some ⟨2.5, 2, 2⟩, correctScore := none }) = 1 :=
  c2_totals_conditioning ⟨2, some 3, 4⟩ ⟨2.5, 2, 2⟩ none
    (sumProbs (totalsAdjust ⟨2.5, 2, 2⟩ (oddsToScoreProbabilities 2 (some 3) 4)))
    (by norm_num) (by norm_num)
    (by intro d hd; simp only [Option.mem_def, Option.some.injEq] at hd; subst hd; norm_num)
    (by norm_num) (by norm_num) rfl

lemma generateMissingMarkets_correctScore (m : MatchMarkets) (h : H2HOdds)
    (hm : m.h2h = some h) :
    (generateMissingMarkets m).correctScore =
      some ((commonScoreProbs (1 / h.home) (1 / h.away) (impliedOr h.draw 0.34)).map
        (fun s => ⟨s.1, (1 / (s.2 / sumSnd (commonScoreProbs (1 / h.home) (1 / h.away)
          (impliedOr h.draw 0.34)))) * 1.1⟩)) := by
  simp only [generateMissingMarkets, hm]

/-- C7 counterexample: the `3-2` entry of the correct-score catalogue is
`(homeProb + awayProb) * 0.05`, which is not one of the three implied
probabilities times a fixed per-scoreline weight: no single weight `w`
works for all inputs (at `(1,0,0)` it forces `w = 0.05`, at `(1,1,0)` it
forces `w = 0.1`). -/
theorem c7_counterexample :
    ¬ ∃ w : ℚ, ∀ hp ap dp : ℚ,
      ((commonScoreProbs hp ap dp).getD 13 ("", 0)).2 = hp * w ∨
      ((commonScoreProbs hp ap dp).getD 13 ("", 0)).2 = ap * w ∨
      ((commonScoreProbs hp ap dp).getD 13 ("", 0)).2 = dp * w := by
  rintro ⟨w, hw⟩
  have h1 := hw 1 0 0
  have h2 := hw 1 1 0
  norm_num [commonScoreProbs, List.getD] at h1 h2
  linarith

/-- C7 amended: in the correct-score synthesis (performed whenever a win
market exists), each of the 16 catalogued scorelines receives a
pre-normalization probability equal to the home, away or draw implied
probability (draw defaulting to 0.34 when draw odds are absent) times a
fixed per-scoreline weight — except the `3-2` scoreline, which uses
`(homeProb + awayProb) * 0.05`; the 16 values are then normalized by their
sum `T` (they sum to 1 after division by `T`) and inverted with a 1.10
margin factor. -/
theorem c7_amended_correct_score (m : MatchMarkets) (h : H2HOdds) (hp ap dp T : ℚ)
    (hm : m.h2h = some h)
    (hh : 1 < h.home) (ha : 1 < h.away) (hd : ∀ d ∈ h.draw, 1 < d)
    (hhp : hp = 1 / h.home) (hap : ap = 1 / h.away) (hdp : dp = impliedOr h.draw 0.34)
    (hT : T = sumSnd (commonScoreProbs hp ap dp)) :
    (generateMissingMarkets m).correctScore =
      some ((commonScoreProbs hp ap dp).map (fun s => ⟨s.1, (1 / (s.2 / T)) * 1.1⟩)) ∧
    ((commonScoreProbs hp ap dp).map (fun s => s.2 / T)).sum = 1 := by
  subst hhp hap hdp hT
  constructor
  · exact generateMissingMarkets_correctScore m h hm
  · have hp0 : 0 < 1 / h.home := one_div_pos.mpr (lt_trans one_pos hh)
    have ha0 : 0 < 1 / h.away := one_div_pos.mpr (lt_trans one_pos ha)
    have hd0 : 0 < impliedOr h.draw 0.34 := impliedOr_pos hd (by norm_num)
    have hTval : sumSnd (commonScoreProbs (1 / h.home) (1 / h.away)
        (impliedOr h.draw 0.34)) =
        (1 / h.home) * (71 / 100) + (1 / h.away) * (71 / 100) +
          impliedOr h.draw 0.34 * (7 / 10) := by
      rw [sumSnd_eq_sum]
      simp [commonScoreProbs]
      ring
    have hT0 : sumSnd (commonScoreProbs (1 / h.home) (1 / h.away)
        (impliedOr h.draw 0.34)) ≠ 0 := by
      rw [hTval]
      have t1 : 0 < (1 / h.home) * (71 / 100 : ℚ) := mul_pos hp0 (by norm_num)
      have t2 : 0 < (1 / h.away) * (71 / 100 : ℚ) := mul_pos ha0 (by norm_num)
      have t3 : 0 < impliedOr h.draw 0.34 * (7 / 10 : ℚ) := mul_pos hd0 (by norm_num)
      linarith
    rw [sum_map_div, ← sumSnd_eq_sum, div_self hT0]

/-- Witness for C7's amended theorem at the win market (2, 3, 4), with
implied probabilities 1/2, 1/4 and 1/3. -/
theorem c7_amended_correct_score_witness :
    (generateMissingMarkets { h2h := some ⟨2, some 3, 4⟩ }).correctScore =
      some ((commonScoreProbs (1 / 2) (1 / 4) (1 / 3)).map
        (fun s => ⟨s.1, (1 / (s.2 / sumSnd (commonScoreProbs (1 / 2) (1 / 4) (1 / 3)))) *
          1.1⟩)) ∧
    ((commonScoreProbs (1 / 2) (1 / 4) (1 / 3)).map
      (fun s => s.2 / sumSnd (commonScoreProbs (1 / 2) (1 / 4) (1 / 3)))).sum = 1 :=
  c7_amended_correct_score { h2h := some ⟨2, some 3, 4⟩ } ⟨2, some 3, 4⟩
    (1 / 2) (1 / 4) (1 / 3) (sumSnd (commonScoreProbs (1 / 2) (1 / 4) (1 / 3)))
    rfl (by norm_num) (by norm_num)
    (by intro d hd; simp only [Option.mem_def, Option.some.injEq] at hd; subst hd; norm_num)
    (by norm_num) (by norm_num) (by norm_num [impliedOr]) rfl

lemma bttsAdjust_map (b : BTTSOdds) (l : List ScoreProbability) :
    bttsAdjust b l = l.map (fun sp =>
      { sp with probability := sp.probability *
          (if sp.home_score > 0 ∧ sp.away_score > 0 then
            0.5 + ((1 / b.yes) / (1 / b.yes + 1 / b.no)) * 0.5
          else 0.5 + (1 - (1 / b.yes) / (1 / b.yes + 1 / b.no)) * 0.5) }) := by
  rw [bttsAdjust]
  congr 1
  funext sp
  split_ifs with h1
  · rfl
  · rfl

lemma totalsAdjustUnder_map (point overOdds underOdds : ℚ) (l : List ScoreProbability) :
    totalsAdjustUnder point overOdds underOdds l = l.map (fun sp =>
      { sp with probability := sp.probability *
          (if (sp.home_score : ℚ) + (sp.away_score : ℚ) > point then
            0.5 + ((1 / overOdds) / (1 / overOdds + 1 / underOdds)) * 0.5
          else if (sp.home_score : ℚ) + (sp.away_score : ℚ) < point then
            0.5 + ((1 / underOdds) / (1 / overOdds + 1 / underOdds)) * 0.5
          else 1) }) := by
  rw [totalsAdjustUnder]
  congr 1
  funext sp
  rcases sp with ⟨b1, b2, pr⟩
  split_ifs with h1 h2
  · rfl
  · rfl
  · simp

lemma totalsAdjust_nonneg {t : TotalsOdds} {l : List ScoreProbability}
    (hov : 0 < t.over) (hun : 0 < t.under)
    (hnn : ∀ sp ∈ l, 0 ≤ sp.probability) :
    ∀ sp ∈ totalsAdjust t l, 0 ≤ sp.probability := by
  obtain ⟨hn0, hn1⟩ := normOver_bounds hov hun
  intro sp hsp
  rw [totalsAdjust_map, List.mem_map] at hsp
  obtain ⟨sq, hsq, rfl⟩ := hsp
  have hfac : (0 : ℚ) ≤ (if (sq.home_score : ℚ) + (sq.away_score : ℚ) > t.point then
      0.5 + ((1 / t.over) / (1 / t.over + 1 / t.under)) * 0.5
    else if (sq.home_score : ℚ) + (sq.away_score : ℚ) < t.point then
      0.5 + (1 - (1 / t.over) / (1 / t.over + 1 / t.under)) * 0.5
    else 1) := by
    split_ifs with g1 g2
    · linarith
    · linarith
    · norm_num
  exact mul_nonneg (hnn sq hsq) hfac

lemma normalizeProbs_nonneg {l : List ScoreProbability}
    (hnn : ∀ sp ∈ l, 0 ≤ sp.probability) (hS : 0 ≤ sumProbs l) :
    ∀ sp ∈ normalizeProbs l, 0 ≤ sp.probability := by
  intro sp hsp
  rw [normalizeProbs_eq, List.mem_map] at hsp
  obtain ⟨sq, hsq, rfl⟩ := hsp
  exact div_nonneg (hnn sq hsq) hS

lemma sumProbs_bttsAdjust_ge {b : BTTSOdds} {l : List ScoreProbability}
    (hyes : 0 < b.yes) (hno : 0 < b.no)
    (hnn : ∀ sp ∈ l, 0 ≤ sp.probability) :
    (1 / 2) * sumProbs l ≤ sumProbs (bttsAdjust b l) := by
  obtain ⟨hn0, hn1⟩ := normOver_bounds hyes hno
  simp only [one_div] at hn0 hn1
  rw [bttsAdjust_map, sumProbs_eq_sum, sumProbs_eq_sum, List.map_map]
  have hcomp : (ScoreProbability.probability ∘ fun (sp : ScoreProbability) =>
      ({ sp with probability := sp.probability *
          (if sp.home_score > 0 ∧ sp.away_score > 0 then
            0.5 + ((1 / b.yes) / (1 / b.yes + 1 / b.no)) * 0.5
          else 0.5 + (1 - (1 / b.yes) / (1 / b.yes + 1 / b.no)) * 0.5) } :
        ScoreProbability)) =
      fun sp => sp.probability *
          (if sp.home_score > 0 ∧ sp.away_score > 0 then
            0.5 + ((1 / b.yes) / (1 / b.yes + 1 / b.no)) * 0.5
          else 0.5 + (1 - (1 / b.yes) / (1 / b.yes + 1 / b.no)) * 0.5) := rfl
  rw [hcomp]
  calc (1 / 2) * (l.map ScoreProbability.probability).sum
      = (l.map (fun sp => ScoreProbability.probability sp * (1 / 2))).sum := by
        rw [sum_map_mul_right]; ring
    _ ≤ _ := by
        apply List.sum_le_sum
        intro sp hsp
        have hp := hnn sp hsp
        split_ifs with g1
        · exact mul_le_mul_of_nonneg_left (by norm_num; linarith) hp
        · exact mul_le_mul_of_nonneg_left (by norm_num; linarith) hp

lemma sumProbs_totalsAdjustUnder_ge (p : ℚ) {o u : ℚ} {l : List ScoreProbability}
    (ho : 0 < o) (hu : 0 < u)
    (hnn : ∀ sp ∈ l, 0 ≤ sp.probability) :
    (1 / 2) * sumProbs l ≤ sumProbs (totalsAdjustUnder p o u l) := by
  have h1 : 0 < 1 / o := one_div_pos.mpr ho
  have h2 : 0 < 1 / u := one_div_pos.mpr hu
  have hb0 : 0 ≤ (1 / o) / (1 / o + 1 / u) := div_nonneg h1.le (by linarith)
  have hb1 : 0 ≤ (1 / u) / (1 / o + 1 / u) := div_nonneg h2.le (by linarith)
  simp only [one_div] at hb0 hb1
  rw [totalsAdjustUnder_map, sumProbs_eq_sum, sumProbs_eq_sum, List.map_map]
  have hcomp : (ScoreProbability.probability ∘ fun (sp : ScoreProbability) =>
      ({ sp with probability := sp.probability *
          (if (sp.home_score : ℚ) + (sp.away_score : ℚ) > p then
            0.5 + ((1 / o) / (1 / o + 1 / u)) * 0.5
          else if (sp.home_score : ℚ) + (sp.away_score : ℚ) < p then
            0.5 + ((1 / u) / (1 / o + 1 / u)) * 0.5
          else 1) } : ScoreProbability)) =
      fun sp => sp.probability *
          (if (sp.home_score : ℚ) + (sp.away_score : ℚ) > p then
            0.5 + ((1 / o) / (1 / o + 1 / u)) * 0.5
          else if (sp.home_score : ℚ) + (sp.away_score : ℚ) < p then
            0.5 + ((1 / u) / (1 / o + 1 / u)) * 0.5
          else 1) := rfl
  rw [hcomp]
  calc (1 / 2) * (l.map ScoreProbability.probability).sum
      = (l.map (fun sp => ScoreProbability.probability sp * (1 / 2))).sum := by
        rw [sum_map_mul_right]; ring
    _ ≤ _ := by
        apply List.sum_le_sum
        intro sp hsp
        have hp := hnn sp hsp
        split_ifs with g1 g2
        · exact mul_le_mul_of_nonneg_left (by norm_num; linarith) hp
        · exact mul_le_mul_of_nonneg_left (by norm_num; linarith) hp
        · exact mul_le_mul_of_nonneg_left (by norm_num) hp

lemma sumSnd_commonScoreProbs_pos {h : H2HOdds} (hh : 1 < h.home) (ha : 1 < h.away)
    (hd : ∀ d ∈ h.draw, 1 < d) :
    0 < sumSnd (commonScoreProbs (1 / h.home) (1 / h.away) (impliedOr h.draw 0.34)) := by
  have hp0 : 0 < 1 / h.home := one_div_pos.mpr (lt_trans one_pos hh)
  have ha0 : 0 < 1 / h.away := one_div_pos.mpr (lt_trans one_pos ha)
  have hd0 : 0 < impliedOr h.draw 0.34 := impliedOr_pos hd (by norm_num)
  have hTval : sumSnd (commonScoreProbs (1 / h.home) (1 / h.away) (impliedOr h.draw 0.34)) =
      (1 / h.home) * (71 / 100) + (1 / h.away) * (71 / 100) +
        impliedOr h.draw 0.34 * (7 / 10) := by
    rw [sumSnd_eq_sum]
    simp [commonScoreProbs]
    ring
  rw [hTval]
  have t1 : 0 < (1 / h.home) * (71 / 100 : ℚ) := mul_pos hp0 (by norm_num)
  have t2 : 0 < (1 / h.away) * (71 / 100 : ℚ) := mul_pos ha0 (by norm_num)
  have t3 : 0 < impliedOr h.draw 0.34 * (7 / 10 : ℚ) := mul_pos hd0 (by norm_num)
  linarith

/-- C8 amended: every renormalization of the engine divides each element by
the list's sum with no zero-sum guard (a zero-sum list is not returned
unchanged — see the counterexample); under data-model odds (win-market,
totals, and both-teams-to-score odds all > 1), the denominator of every
renormalization step of the engine is positive, so no division by zero
occurs in any of them: the win-market implied-probability normalization,
the totals-stage and both-teams-to-score-stage renormalizations of
`oddsToProbabilities` (the latter on both the with-totals and
without-totals paths), the correct-score synthesis normalization of
`generateMissingMarkets`, and the totals-stage renormalization of
`oddsToScoreProbabilitiesWithTotals`. -/
theorem c8_amended_unguarded_division (h : H2HOdds) (t : TotalsOdds) (b : BTTSOdds)
    (p o u : ℚ)
    (hh : 1 < h.home) (ha : 1 < h.away) (hd : ∀ d ∈ h.draw, 1 < d)
    (hov : 1 < t.over) (hun : 1 < t.under)
    (hyes : 1 < b.yes) (hno : 1 < b.no) (ho : 1 < o) (hu : 1 < u) :
    (∀ l : List ScoreProbability, normalizeProbs l =
      l.map (fun sp => { sp with probability := sp.probability / sumProbs l })) ∧
    0 < 1 / h.home + impliedOr h.draw 0 + 1 / h.away ∧
    0 < sumProbs (totalsAdjust t (oddsToScoreProbabilities h.home h.draw h.away)) ∧
    0 < sumProbs (bttsAdjust b (oddsToScoreProbabilities h.home h.draw h.away)) ∧
    0 < sumProbs (bttsAdjust b (normalizeProbs
        (totalsAdjust t (oddsToScoreProbabilities h.home h.draw h.away)))) ∧
    0 < sumSnd (commonScoreProbs (1 / h.home) (1 / h.away) (impliedOr h.draw 0.34)) ∧
    0 < sumProbs (totalsAdjustUnder p o u
        (oddsToScoreProbabilities h.home h.draw h.away)) := by
  have hov0 : 0 < t.over := lt_trans one_pos hov
  have hun0 : 0 < t.under := lt_trans one_pos hun
  have hyes0 : 0 < b.yes := lt_trans one_pos hyes
  have hno0 : 0 < b.no := lt_trans one_pos hno
  have ho0 : 0 < o := lt_trans one_pos ho
  have hu0 : 0 < u := lt_trans one_pos hu
  have hbase_nn := oddsToScoreProbabilities_nonneg hh ha hd
  have hbase_sum := sumProbs_oddsToScoreProbabilities hh ha hd
  refine ⟨fun l => rfl, implied_total_pos hh ha hd, ?_, ?_, ?_,
    sumSnd_commonScoreProbs_pos hh ha hd, ?_⟩
  · have hge := sumProbs_totalsAdjust_ge hh ha hd hov0 hun0
    linarith
  · have hge := sumProbs_bttsAdjust_ge hyes0 hno0 hbase_nn
    rw [hbase_sum] at hge
    linarith
  · have hTnn := totalsAdjust_nonneg hov0 hun0 hbase_nn
    have hTS := sumProbs_totalsAdjust_ge hh ha hd hov0 hun0
    have hTS0 : sumProbs
        (totalsAdjust t (oddsToScoreProbabilities h.home h.draw h.away)) ≠ 0 :=
      ne_of_gt (by linarith)
    have hLnn := normalizeProbs_nonneg hTnn (by linarith)
    have hLsum := sumProbs_normalizeProbs _ hTS0
    have hfin := sumProbs_bttsAdjust_ge hyes0 hno0 hLnn
    rw [hLsum] at hfin
    linarith
  · have hge := sumProbs_totalsAdjustUnder_ge p ho0 hu0 hbase_nn
    rw [hbase_sum] at hge
    linarith

/-- Witness for C8's amended theorem at concrete markets: win (2, 3, 4),
totals (2.5, 2, 2), both-teams-to-score (1.8, 1.9), and variant totals
arguments (3.5, 1.7, 2.2). -/
theorem c8_amended_witness :
    (∀ l : List ScoreProbability, normalizeProbs l =
      l.map (fun sp => { sp with probability := sp.probability / sumProbs l })) ∧
    0 < 1 / (2 : ℚ) + impliedOr (some 3) 0 + 1 / 4 ∧
    0 < sumProbs (totalsAdjust ⟨2.5, 2, 2⟩ (oddsToScoreProbabilities 2 (some 3) 4)) ∧
    0 < sumProbs (bttsAdjust ⟨1.8, 1.9⟩ (oddsToScoreProbabilities 2 (some 3) 4)) ∧
    0 < sumProbs (bttsAdjust ⟨1.8, 1.9⟩ (normalizeProbs
        (totalsAdjust ⟨2.5, 2, 2⟩ (oddsToScoreProbabilities 2 (some 3) 4)))) ∧
    0 < sumSnd (commonScoreProbs (1 / 2) (1 / 4) (impliedOr (some 3) 0.34)) ∧
    0 < sumProbs (totalsAdjustUnder 3.5 1.7 2.2 (oddsToScoreProbabilities 2 (some 3) 4)) :=
  c8_amended_unguarded_division ⟨2, some 3, 4⟩ ⟨2.5, 2, 2⟩ ⟨1.8, 1.9⟩ 3.5 1.7 2.2
    (by norm_num) (by norm_num)
    (by intro d hd; simp only [Option.mem_def, Option.some.injEq] at hd; subst hd; norm_num)
    (by norm_num) (by norm_num) (by norm_num) (by norm_num) (by norm_num) (by norm_num)
